import Mathlib

/-!
Shallow embedding of `llm_function_stock_price_demo.py`: the quote gateway
(`search_stock_symbol`, `get_stock_price`), the stream accumulator
(`process_stream`), the tool dispatcher (`process_tool_calls`) and the
conversation orchestrator (`get_stock_info`).

Modelling conventions:
- JSON payloads are modelled structurally.  A provider search match is a
  record of the four fields the code reads (`'1. symbol'`, `'2. name'`,
  `'4. region'`, `'9. matchScore'`), each `Option`-valued since the code can
  hit a `KeyError` when one is absent; the parsed float score is a rational.
- `json.dumps` of a list of records is modelled as the list itself (the
  serialization is injective and never fails on these shapes).
- A Python exception is modelled with `Except Unit` for the gateway, and with
  an explicit `raised : Bool` component for the in-place-mutating dispatcher
  (the appends done before the exception persist, as they do in Python).
- Python's `sorted(key=k, reverse=True)` is a stable descending sort by `k`;
  it is modelled by `List.mergeSort` with `le a b := k b ≤ k a`, which is
  stable in exactly the same sense.
- The remote chat provider is a parameter `provider : List Msg → List Delta`
  giving the fragment stream returned for a model call issued on a given
  message list; interactive input is a pair of string parameters.
-/

namespace StockDemo

/-- Message roles used by the script. -/
inductive Role where
  | system
  | user
  | assistant
  | tool
deriving DecidableEq, Repr

/-- A tool-invocation request produced by the model: id, function name and
raw (undecoded) argument text. -/
structure ToolCall where
  id : String
  fname : String
  arguments : String
deriving DecidableEq, Repr

/-- A conversation message, as the dicts the script appends to `messages`:
role, content, optional `tool_call_id` (tool-role replies) and the list of
tool calls (assistant messages built by `process_stream`). -/
structure Msg where
  role : Role
  content : String
  toolCallId : Option String
  toolCalls : List ToolCall
deriving DecidableEq, Repr

/-! ## Quote gateway -/

/-- One entry of the provider's `bestMatches` list, restricted to the four
fields the code reads.  `none` models an absent key; the match score is the
parsed float value. -/
structure ProviderMatch where
  symbol1 : Option String
  name2 : Option String
  region4 : Option String
  matchScore9 : Option ℚ
deriving DecidableEq, Repr

/-- The normalized search result record `{'symbol', 'name', 'region', 'score'}`. -/
structure SymbolMatch where
  symbol : String
  name : String
  region : String
  score : ℚ
deriving DecidableEq, Repr

/-- The sort key `float(x.get('9. matchScore', 0))`: the parsed score, or `0`
when the field is absent. -/
def sortKey (m : ProviderMatch) : ℚ :=
  m.matchScore9.getD 0

/-- One step of the result-building comprehension: `match['1. symbol']` etc.
raise a `KeyError` (modelled `Except.error ()`) when a field is absent. -/
def toSymbolMatch (m : ProviderMatch) : Except Unit SymbolMatch :=
  match m.symbol1, m.name2, m.region4, m.matchScore9 with
  | some s, some n, some r, some sc => .ok ⟨s, n, r, sc⟩
  | _, _, _, _ => .error ()

/-- `search_stock_symbol`, from the point where the response JSON `data` is in
hand.  `none` models a response without the `'bestMatches'` key.  With the key
present, the matches are stably sorted by score descending and mapped into
`SymbolMatch` records; a missing field in any entry raises. -/
def search_stock_symbol (data : Option (List ProviderMatch)) :
    Except Unit (List SymbolMatch) :=
  match data with
  | some ms =>
      (ms.mergeSort (fun a b => decide (sortKey b ≤ sortKey a))).mapM toSymbolMatch
  | none => .ok []

/-- The `'Global Quote'` object, restricted to the four subfields the code
reads with `.get` (each may be absent). -/
structure GlobalQuote where
  symbol01 : Option String
  price05 : Option String
  change09 : Option String
  changePercent10 : Option String
deriving DecidableEq, Repr

/-- The payload `get_stock_price` serializes: either the normalized quote
record (fields `null` when the subfield was absent) or the error marker
`{"error": "No price data available"}`. -/
inductive PriceResult where
  | quote (symbol price change changePercent : Option String)
  | errorMarker
deriving DecidableEq, Repr

/-- `get_stock_price`, from the point where the response JSON `data` is in
hand.  `none` models a response without the `'Global Quote'` key. -/
def get_stock_price (data : Option GlobalQuote) : PriceResult :=
  match data with
  | some q => .quote q.symbol01 q.price05 q.change09 q.changePercent10
  | none => .errorMarker

/-! ## Stream accumulator -/

/-- One streamed fragment's delta: optional text content (`none` models a
chunk whose `delta.content` is `None`) and optional tool-call descriptors
(`none` models `delta.tool_calls` being `None`). -/
structure Delta where
  content : Option String
  toolCalls : Option (List ToolCall)
deriving DecidableEq, Repr

/-- One iteration of the `process_stream` loop.  The truthiness tests
`if delta.content` and `if delta.tool_calls` skip `None`, the empty string
and the empty list. -/
def streamStep (acc : String × List ToolCall) (d : Delta) :
    String × List ToolCall :=
  let acc1 :=
    match d.content with
    | some s => if s = "" then acc else (acc.1 ++ s, acc.2)
    | none => acc
  match d.toolCalls with
  | some tcs => if tcs = [] then acc1 else (acc1.1, acc1.2 ++ tcs)
  | none => acc1

/-- `process_stream`: fold over the fragment sequence, returning the
assistant message `{"role": "assistant", "content": full_text,
"tool_calls": tool_calls}`.  (The write-through `print` is an output side
effect with no bearing on the returned value.) -/
def process_stream (chunks : List Delta) : Msg :=
  let r := chunks.foldl streamStep ("", [])
  ⟨Role.assistant, r.1, none, r.2⟩

/-! ## Tool dispatcher -/

/-- Decoded argument mapping, as `json.loads` yields for an argument object:
a key-value mapping of strings (both tool functions take one string
parameter). -/
abbrev Args := List (String × String)

/-- A registry from function names to implementations, as the
`available_functions` dict.  Implementations are abstract string-valued
functions: the real ones perform HTTP calls, outside this embedding. -/
abbrev Registry := String → Option (Args → String)

/-- The tool-role message appended for an answered tool call:
`{"role": "tool", "content": str(result), "tool_call_id": id}`. -/
def toolMsg (id result : String) : Msg :=
  ⟨Role.tool, result, some id, []⟩

/-- `process_tool_calls`.  `messages` is mutated in place in Python, so the
model passes the list through and returns it together with a flag telling
whether `json.loads` raised (aborting the loop; appends made before the
exception persist).  An unknown function name is skipped silently. -/
def process_tool_calls (available : Registry) (decode : String → Option Args) :
    List ToolCall → List Msg → List Msg × Bool
  | [], messages => (messages, false)
  | tc :: rest, messages =>
      match available tc.fname with
      | none => process_tool_calls available decode rest messages
      | some f =>
          match decode tc.arguments with
          | none => (messages, true)
          | some args =>
              process_tool_calls available decode rest
                (messages ++ [toolMsg tc.id (f args)])

/-! ## Conversation orchestrator -/

/-- The fixed `available_functions` registry, mapping the two tool names to
the (abstract) implementations. -/
def available_functions (searchImpl priceImpl : Args → String) : Registry :=
  fun name =>
    if name = "search_stock_symbol" then some searchImpl
    else if name = "get_stock_price" then some priceImpl
    else none

/-- The external collaborators and interactive inputs of one session:
the chat provider (message list at the moment the model call is issued ↦
fragment stream returned), the `json.loads` argument decoder, the two tool
implementations, and the two interactive inputs. -/
structure Session where
  provider : List Msg → List Delta
  decode : String → Option Args
  searchImpl : Args → String
  priceImpl : Args → String
  stockQuery : String
  userChoice : String

/-- The fixed system message of `get_stock_info`. -/
def systemMsg : Msg :=
  ⟨Role.system, "You are a helpful stock market assistant. When searching for a stock, first help find the correct symbol use the search_stock_symbol tool to find matching stock symbols, then get its current price using the get_stock_price tool. If multiple symbols are found, ask the user which one they want to look up, return only a numbered list of symbols along with the company name and region, with no additional text or questions. Present the information in a clear, organized way.", none, []⟩

/-- A plain user message. -/
def userMsg (s : String) : Msg := ⟨Role.user, s, none, []⟩

/-- The session's registry. -/
def sessionRegistry (sess : Session) : Registry :=
  available_functions sess.searchImpl sess.priceImpl

/-- Initial message list: system message plus the templated user query. -/
def msgs0 (sess : Session) : List Msg :=
  [systemMsg, userMsg ("What's the current stock price for " ++ sess.stockQuery ++ "?")]

/-- First model call (issued on `msgs0`), accumulated by `process_stream`. -/
def initial_response (sess : Session) : Msg :=
  process_stream (sess.provider (msgs0 sess))

/-- Messages after appending the first assistant response. -/
def msgs1 (sess : Session) : List Msg :=
  msgs0 sess ++ [initial_response sess]

/-- Result of dispatching the first response's tool calls. -/
def dispatch1 (sess : Session) : List Msg × Bool :=
  process_tool_calls (sessionRegistry sess) sess.decode
    (initial_response sess).toolCalls (msgs1 sess)

/-- Messages at the moment the second model call is issued. -/
def msgs2 (sess : Session) : List Msg := (dispatch1 sess).1

/-- Second model call (issued on `msgs2`). -/
def final_response (sess : Session) : Msg :=
  process_stream (sess.provider (msgs2 sess))

/-- Messages after appending the second assistant response. -/
def msgs3 (sess : Session) : List Msg :=
  msgs2 sess ++ [final_response sess]

/-- Messages after appending the user's disambiguation choice; the third
model call is issued on this list. -/
def msgs4 (sess : Session) : List Msg :=
  msgs3 sess ++ [userMsg ("I choose option " ++ sess.userChoice ++ ".")]

/-- Third model call (issued on `msgs4`). -/
def final_choice_response (sess : Session) : Msg :=
  process_stream (sess.provider (msgs4 sess))

/-- Messages after appending the third assistant response. -/
def msgs5 (sess : Session) : List Msg :=
  msgs4 sess ++ [final_choice_response sess]

/-- Result of dispatching the third response's tool calls, guarded by the
truthiness test `if final_choice_response.get("tool_calls")`. -/
def dispatch2 (sess : Session) : List Msg × Bool :=
  if (final_choice_response sess).toolCalls = [] then (msgs5 sess, false)
  else
    process_tool_calls (sessionRegistry sess) sess.decode
      (final_choice_response sess).toolCalls (msgs5 sess)

/-- Final message list; when the third response carried tool calls (and no
exception aborted the run) a fourth model call is issued on this list, whose
response is not appended. -/
def msgs6 (sess : Session) : List Msg := (dispatch2 sess).1

/-! ## Auxiliary definitions for the theorems -/

/-- The record `search_stock_symbol` builds for a match whose fields are all
present (with `getD` defaults that are never used in that case). -/
def recordOf (m : ProviderMatch) : SymbolMatch :=
  ⟨m.symbol1.getD "", m.name2.getD "", m.region4.getD "", sortKey m⟩

/-- Whether a message is the tool-role reply answering tool-call id `i`. -/
def answers (i : String) (m : Msg) : Bool :=
  decide (m.role = Role.tool ∧ m.toolCallId = some i)

/-- A concrete session whose second model call answers with a tool-call
request: the provider returns a tool-call fragment exactly when the message
list has length 3, which is the state of the second call. -/
def cexSession : Session :=
  ⟨fun ms =>
      if ms.length = 3 then [⟨none, some [⟨"tc2", "search_stock_symbol", "args"⟩]⟩]
      else [],
    fun _ => some [], fun _ => "searched", fun _ => "priced", "Apple", "1"⟩

/-- A concrete session in which the first model call answers with two
simultaneous tool-call requests (split across two fragments), and the third
with one; every requested name is registered and every argument decodes. -/
def witSession : Session :=
  ⟨fun ms =>
      if ms.length = 2 then
        [⟨none, some [⟨"a1", "search_stock_symbol", "args"⟩]⟩,
          ⟨none, some [⟨"a2", "search_stock_symbol", "args"⟩]⟩]
      else if ms.length = 7 then
        [⟨none, some [⟨"b1", "get_stock_price", "args"⟩]⟩]
      else [],
    fun _ => some [], fun _ => "searched", fun _ => "priced", "Apple", "1"⟩

end StockDemo

namespace StockDemo

/-! ## Helper lemmas -/

lemma mapM_ok_mem {α β : Type} (f : α → Except Unit β) :
    ∀ (l : List α) (l' : List β), l.mapM f = Except.ok l' →
      ∀ x ∈ l, ∃ y, f x = Except.ok y := by
  intro l
  induction l with
  | nil => simp
  | cons a as ih =>
    intro l' h x hx
    rw [List.mapM_cons] at h
    cases hfa : f a with
    | error e => rw [hfa] at h; simp [Bind.bind, Except.bind] at h
    | ok y =>
      rw [hfa] at h
      cases hrest : as.mapM f with
      | error e =>
        rw [hrest] at h; simp [Bind.bind, Except.bind] at h
      | ok ys =>
        rcases List.mem_cons.mp hx with rfl | hx
        · exact ⟨y, hfa⟩
        · exact ih ys hrest x hx

lemma mapM_eq_map {α β : Type} (f : α → Except Unit β) (g : α → β) :
    ∀ l : List α, (∀ x ∈ l, f x = Except.ok (g x)) →
      l.mapM f = Except.ok (l.map g) := by
  intro l
  induction l with
  | nil => intro _; rfl
  | cons a as ih =>
    intro h
    rw [List.mapM_cons, h a (by simp), ih (fun x hx => h x (by simp [hx]))]
    rfl

lemma foldl_append_str (l : List String) : ∀ a b : String,
    l.foldl (fun x y => x ++ y) (a ++ b) = a ++ l.foldl (fun x y => x ++ y) b := by
  induction l with
  | nil => intro a b; rfl
  | cons s ss ih =>
    intro a b
    rw [List.foldl_cons, List.foldl_cons, String.append_assoc, ih]

lemma join_cons (s : String) (l : List String) :
    String.join (s :: l) = s ++ String.join l := by
  show (s :: l).foldl (fun x y => x ++ y) "" = s ++ l.foldl (fun x y => x ++ y) ""
  rw [List.foldl_cons]
  have h : ("" : String) ++ s = s ++ "" := by
    rw [String.empty_append, String.append_empty]
  rw [h, foldl_append_str]

lemma foldl_streamStep :
    ∀ (chunks : List Delta) (c : String) (t : List ToolCall),
      chunks.foldl streamStep (c, t)
        = (c ++ String.join (chunks.filterMap Delta.content),
           t ++ (chunks.filterMap Delta.toolCalls).flatten) := by
  intro chunks
  induction chunks with
  | nil =>
    intro c t
    show (c, t) = (c ++ String.join (List.filterMap Delta.content []),
      t ++ (List.filterMap Delta.toolCalls []).flatten)
    rw [List.filterMap_nil, List.filterMap_nil]
    show (c, t) = (c ++ "", t ++ [])
    rw [String.append_empty, List.append_nil]
  | cons d ds ih =>
    intro c t
    rw [List.foldl_cons]
    rcases hc : d.content with _ | s <;> rcases ht : d.toolCalls with _ | tcs
    · rw [show streamStep (c, t) d = (c, t) by simp [streamStep, hc, ht], ih]
      simp [List.filterMap_cons, hc, ht]
    · by_cases htc : tcs = []
      · rw [show streamStep (c, t) d = (c, t) by simp [streamStep, hc, ht, htc], ih]
        simp [List.filterMap_cons, hc, ht, htc]
      · rw [show streamStep (c, t) d = (c, t ++ tcs) by
          simp [streamStep, hc, ht, htc], ih]
        simp [List.filterMap_cons, hc, ht, List.append_assoc]
    · by_cases hs : s = ""
      · rw [show streamStep (c, t) d = (c, t) by simp [streamStep, hc, ht, hs], ih]
        simp [List.filterMap_cons, hc, ht, hs, join_cons, String.empty_append]
      · rw [show streamStep (c, t) d = (c ++ s, t) by
          simp [streamStep, hc, ht, hs], ih]
        simp [List.filterMap_cons, hc, ht, join_cons, String.append_assoc]
    · by_cases hs : s = "" <;> by_cases htc : tcs = []
      · rw [show streamStep (c, t) d = (c, t) by
          simp [streamStep, hc, ht, hs, htc], ih]
        simp [List.filterMap_cons, hc, ht, hs, htc, join_cons, String.empty_append]
      · rw [show streamStep (c, t) d = (c, t ++ tcs) by
          simp [streamStep, hc, ht, hs, htc], ih]
        simp [List.filterMap_cons, hc, ht, hs, join_cons, String.empty_append,
          List.append_assoc]
      · rw [show streamStep (c, t) d = (c ++ s, t) by
          simp [streamStep, hc, ht, hs, htc], ih]
        simp [List.filterMap_cons, hc, ht, htc, join_cons, String.append_assoc]
      · rw [show streamStep (c, t) d = (c ++ s, t ++ tcs) by
          simp [streamStep, hc, ht, hs, htc], ih]
        simp [List.filterMap_cons, hc, ht, join_cons, String.append_assoc,
          List.append_assoc]

/-! ## Claim theorems: stream accumulator -/

/-- Claim C5: the content of the dictionary `process_stream` returns is the
concatenation, in arrival order, of the text carried by the fragments, and
its tool-call list is the concatenation, in arrival order, of the tool-call
descriptors carried by the fragments. -/
theorem c5_stream_accumulation (chunks : List Delta) :
    (process_stream chunks).content = String.join (chunks.filterMap Delta.content) ∧
    (process_stream chunks).toolCalls
      = (chunks.filterMap Delta.toolCalls).flatten ∧
    (process_stream chunks).role = Role.assistant := by
  unfold process_stream
  rw [foldl_streamStep]
  exact ⟨String.empty_append _, rfl, rfl⟩

/-! ## Claim theorems: tool dispatcher -/

/-- Claim C6: a tool-invocation request whose function name is not in the
registry is skipped silently: no message is appended for it, no error is
raised, and the remaining requests are processed exactly as if it had not
been there. -/
theorem c6_unknown_tool_skipped (available : Registry)
    (decode : String → Option Args) (tc : ToolCall) (rest : List ToolCall)
    (messages : List Msg) (h : available tc.fname = none) :
    process_tool_calls available decode (tc :: rest) messages
      = process_tool_calls available decode rest messages := by
  have hstep : process_tool_calls available decode (tc :: rest) messages
      = match available tc.fname with
        | none => process_tool_calls available decode rest messages
        | some f =>
          match decode tc.arguments with
          | none => (messages, true)
          | some args =>
              process_tool_calls available decode rest
                (messages ++ [toolMsg tc.id (f args)]) := rfl
  rw [hstep, h]

/-- Claim C6 witness: a request for the unregistered name `"frobnicate"`
ahead of a request for `get_stock_price` is dropped, leaving the dispatch of
the remaining request unchanged. -/
theorem c6_witness :
    available_functions (fun _ => "s") (fun _ => "p") "frobnicate" = none ∧
    process_tool_calls (available_functions (fun _ => "s") (fun _ => "p"))
        (fun _ => some [])
        [⟨"id1", "frobnicate", "args"⟩, ⟨"id2", "get_stock_price", "args"⟩] []
      = process_tool_calls (available_functions (fun _ => "s") (fun _ => "p"))
        (fun _ => some []) [⟨"id2", "get_stock_price", "args"⟩] [] := by
  refine ⟨rfl, ?_⟩
  exact c6_unknown_tool_skipped _ _ _ _ _ rfl

/-- Claim C7: a request whose name is registered but whose argument text does
not decode makes the dispatcher raise: the loop aborts with no tool-role
message appended for that request and no processing of the remaining
requests. -/
theorem c7_decode_failure_raises (available : Registry)
    (decode : String → Option Args) (tc : ToolCall) (rest : List ToolCall)
    (messages : List Msg) (hf : (available tc.fname).isSome)
    (hd : decode tc.arguments = none) :
    process_tool_calls available decode (tc :: rest) messages
      = (messages, true) := by
  unfold process_tool_calls
  cases hfa : available tc.fname with
  | none => rw [hfa] at hf; exact absurd hf (by simp)
  | some f => rw [hd]

/-- Claim C7 witness: a `search_stock_symbol` request whose argument text
fails to decode aborts the dispatch with the message list unchanged,
the trailing request unprocessed, and the raised flag set. -/
theorem c7_witness :
    ((available_functions (fun _ => "s") (fun _ => "p"))
        "search_stock_symbol").isSome = true ∧
    process_tool_calls (available_functions (fun _ => "s") (fun _ => "p"))
        (fun _ => none)
        [⟨"id1", "search_stock_symbol", "notjson"⟩,
          ⟨"id2", "get_stock_price", "args"⟩] [systemMsg]
      = ([systemMsg], true) := by
  refine ⟨rfl, ?_⟩
  exact c7_decode_failure_raises _ _ _ _ _ rfl rfl

/-! ## Claim theorems: quote gateway -/

/-- Claim C3: a search response with zero matches, whether the match list is
absent or present but empty, yields the serialization of the empty sequence
and no error. -/
theorem c3_zero_matches_empty :
    search_stock_symbol none = Except.ok ([] : List SymbolMatch) ∧
    search_stock_symbol (some []) = Except.ok ([] : List SymbolMatch) := by
  constructor
  · rfl
  · show ([].mergeSort (fun a b => decide (sortKey b ≤ sortKey a))).mapM
      toSymbolMatch = Except.ok []
    rw [List.mergeSort_nil]
    rfl

/-- Claim C4: a quote response missing the expected `'Global Quote'` object
yields exactly the error-marker payload; `get_stock_price` is total on such
responses (no exceptional path exists in the model). -/
theorem c4_missing_quote_error_marker :
    get_stock_price none = PriceResult.errorMarker := rfl

/-- Claim C10: the error marker is returned exactly when the top-level
`'Global Quote'` key is absent; a present quote object — even one that is
empty or missing subfields, as for an unknown symbol — yields a quote record
whose absent fields are null, never the error marker. -/
theorem c10_error_marker_iff_key_absent :
    (∀ data : Option GlobalQuote,
        get_stock_price data = PriceResult.errorMarker ↔ data = none) ∧
    (∀ q : GlobalQuote,
        get_stock_price (some q)
          = PriceResult.quote q.symbol01 q.price05 q.change09 q.changePercent10) ∧
    get_stock_price (some ⟨none, none, none, none⟩)
      = PriceResult.quote none none none none := by
  refine ⟨fun data => ?_, fun q => rfl, rfl⟩
  cases data <;> simp [get_stock_price]

lemma key_le_trans : ∀ a b c : ProviderMatch,
    decide (sortKey b ≤ sortKey a) = true →
    decide (sortKey c ≤ sortKey b) = true →
    decide (sortKey c ≤ sortKey a) = true := by
  intro a b c hab hbc
  exact decide_eq_true (le_trans (of_decide_eq_true hbc) (of_decide_eq_true hab))

lemma key_le_total : ∀ a b : ProviderMatch,
    (decide (sortKey b ≤ sortKey a) || decide (sortKey a ≤ sortKey b)) = true := by
  intro a b
  rcases le_total (sortKey b) (sortKey a) with h | h
  · rw [decide_eq_true h]; rfl
  · rw [decide_eq_true h, Bool.or_true]

lemma mergeSort_filter_key (ms : List ProviderMatch) (q : ℚ) :
    (ms.mergeSort (fun a b => decide (sortKey b ≤ sortKey a))).filter
        (fun m => decide (sortKey m = q))
      = ms.filter (fun m => decide (sortKey m = q)) := by
  have hkey : ∀ m ∈ ms.filter (fun m => decide (sortKey m = q)), sortKey m = q := by
    intro m hm
    exact of_decide_eq_true (List.mem_filter.mp hm).2
  have hpair : (ms.filter (fun m => decide (sortKey m = q))).Pairwise
      (fun a b => decide (sortKey b ≤ sortKey a) = true) := by
    apply List.pairwise_of_forall_mem_list
    intro a ha b hb
    rw [hkey a ha, hkey b hb]
    exact decide_eq_true le_rfl
  have hsub : (ms.filter (fun m => decide (sortKey m = q))).Sublist
      (ms.mergeSort (fun a b => decide (sortKey b ≤ sortKey a))) :=
    List.sublist_mergeSort key_le_trans key_le_total hpair (List.filter_sublist ms)
  have hsub2 : (ms.filter (fun m => decide (sortKey m = q))).Sublist
      ((ms.mergeSort (fun a b => decide (sortKey b ≤ sortKey a))).filter
        (fun m => decide (sortKey m = q))) := by
    have h1 := List.Sublist.filter (fun m => decide (sortKey m = q)) hsub
    rw [List.filter_filter] at h1
    have h2 : (ms.filter fun m =>
        decide (sortKey m = q) && decide (sortKey m = q))
        = ms.filter (fun m => decide (sortKey m = q)) := by
      apply List.filter_congr
      intro m _
      rw [Bool.and_self]
    rw [h2] at h1
    exact h1
  have hperm : ((ms.mergeSort (fun a b => decide (sortKey b ≤ sortKey a))).filter
      (fun m => decide (sortKey m = q))).Perm
      (ms.filter (fun m => decide (sortKey m = q))) :=
    List.Perm.filter _ (List.mergeSort_perm ms _)
  exact (hsub2.eq_of_length hperm.length_eq.symm).symm

/-- Claim C2: on a search response with a present match list, every entry of
which carries the four provider fields, `search_stock_symbol` succeeds with
exactly as many records as matches, sorted by score in descending order, and
entries with equal scores keep their original relative order (the filter at
any given score equals the corresponding filter of the provider list). -/
theorem c2_search_sorted_stable (ms : List ProviderMatch)
    (hall : ∀ m ∈ ms, m.symbol1.isSome ∧ m.name2.isSome ∧
      m.region4.isSome ∧ m.matchScore9.isSome) :
    ∃ l : List SymbolMatch,
      search_stock_symbol (some ms) = Except.ok l ∧
      l.length = ms.length ∧
      l.Pairwise (fun a b => b.score ≤ a.score) ∧
      ∀ q : ℚ, l.filter (fun r => decide (r.score = q))
        = (ms.filter (fun m => decide (sortKey m = q))).map recordOf := by
  have hok : ∀ m ∈ ms.mergeSort (fun a b => decide (sortKey b ≤ sortKey a)),
      toSymbolMatch m = Except.ok (recordOf m) := by
    intro m hm
    have hmem : m ∈ ms := (List.mergeSort_perm ms _).mem_iff.mp hm
    obtain ⟨h1, h2, h3, h4⟩ := hall m hmem
    obtain ⟨s, hv1⟩ := Option.isSome_iff_exists.mp h1
    obtain ⟨n, hv2⟩ := Option.isSome_iff_exists.mp h2
    obtain ⟨r, hv3⟩ := Option.isSome_iff_exists.mp h3
    obtain ⟨sc, hv4⟩ := Option.isSome_iff_exists.mp h4
    unfold toSymbolMatch recordOf sortKey
    rw [hv1, hv2, hv3, hv4]
    rfl
  have heq : search_stock_symbol (some ms)
      = (ms.mergeSort (fun a b => decide (sortKey b ≤ sortKey a))).mapM
        toSymbolMatch := rfl
  refine ⟨(ms.mergeSort (fun a b => decide (sortKey b ≤ sortKey a))).map recordOf,
    by rw [heq]; exact mapM_eq_map _ _ _ hok, ?_, ?_, ?_⟩
  · rw [List.length_map]
    exact (List.mergeSort_perm ms _).length_eq
  · rw [List.pairwise_map]
    have hp := List.sorted_mergeSort key_le_trans key_le_total ms
    exact hp.imp (fun h => of_decide_eq_true h)
  · intro q
    rw [List.filter_map]
    have hcomp : ((fun r : SymbolMatch => decide (r.score = q)) ∘ recordOf)
        = fun m => decide (sortKey m = q) := rfl
    rw [hcomp, mergeSort_filter_key]

/-- Claim C2 witness: three fully-populated matches with scores 1, 1 and 0,
including a tie at score 1. -/
theorem c2_witness :
    (∀ m ∈ [(⟨some "A", some "ACorp", some "US", some 1⟩ : ProviderMatch),
        ⟨some "B", some "BCorp", some "US", some 1⟩,
        ⟨some "C", some "CCorp", some "DE", some 0⟩],
      m.symbol1.isSome ∧ m.name2.isSome ∧ m.region4.isSome ∧
        m.matchScore9.isSome) ∧
    ∃ l : List SymbolMatch,
      search_stock_symbol
          (some [⟨some "A", some "ACorp", some "US", some 1⟩,
            ⟨some "B", some "BCorp", some "US", some 1⟩,
            ⟨some "C", some "CCorp", some "DE", some 0⟩]) = Except.ok l ∧
      l.length = 3 ∧
      l.Pairwise (fun a b => b.score ≤ a.score) ∧
      ∀ q : ℚ, l.filter (fun r => decide (r.score = q))
        = (([(⟨some "A", some "ACorp", some "US", some 1⟩ : ProviderMatch),
            ⟨some "B", some "BCorp", some "US", some 1⟩,
            ⟨some "C", some "CCorp", some "DE", some 0⟩]).filter
              (fun m => decide (sortKey m = q))).map recordOf :=
  ⟨by decide, c2_search_sorted_stable _ (by decide)⟩

/-- Claim C9: a present match list containing an entry that lacks one of the
four read fields makes `search_stock_symbol` raise (a `KeyError` in the
source), even though the sort key itself tolerates a missing score by
defaulting it to 0. -/
theorem c9_missing_field_raises (ms : List ProviderMatch) (m : ProviderMatch)
    (hm : m ∈ ms)
    (hmiss : m.symbol1 = none ∨ m.name2 = none ∨ m.region4 = none ∨
      m.matchScore9 = none) :
    search_stock_symbol (some ms) = Except.error () ∧
    (∀ m' : ProviderMatch, m'.matchScore9 = none → sortKey m' = 0) := by
  refine ⟨?_, fun m' h => by simp [sortKey, h]⟩
  have herr : toSymbolMatch m = Except.error () := by
    unfold toSymbolMatch
    rcases hs : m.symbol1 with _ | s <;> rcases hn : m.name2 with _ | n <;>
      rcases hr : m.region4 with _ | r <;> rcases hsc : m.matchScore9 with _ | sc <;>
      simp_all
  have hmem : m ∈ ms.mergeSort (fun a b => decide (sortKey b ≤ sortKey a)) :=
    (List.mergeSort_perm ms _).mem_iff.mpr hm
  have heq : search_stock_symbol (some ms)
      = (ms.mergeSort (fun a b => decide (sortKey b ≤ sortKey a))).mapM
        toSymbolMatch := rfl
  rw [heq]
  cases hres : (ms.mergeSort (fun a b => decide (sortKey b ≤ sortKey a))).mapM
      toSymbolMatch with
  | error e => cases e; rfl
  | ok l =>
    exfalso
    obtain ⟨y, hy⟩ := mapM_ok_mem toSymbolMatch _ l hres m hmem
    rw [herr] at hy
    exact Except.noConfusion hy

/-- Claim C9 witness: a two-entry match list whose second entry lacks the
region field. -/
theorem c9_witness :
    ((⟨some "B", some "BCorp", none, some 1⟩ : ProviderMatch) ∈
      [(⟨some "A", some "ACorp", some "US", some 1⟩ : ProviderMatch),
        ⟨some "B", some "BCorp", none, some 1⟩]) ∧
    search_stock_symbol
      (some [⟨some "A", some "ACorp", some "US", some 1⟩,
        ⟨some "B", some "BCorp", none, some 1⟩]) = Except.error () :=
  ⟨by decide,
    (c9_missing_field_raises _ ⟨some "B", some "BCorp", none, some 1⟩
      (by decide) (by decide)).1⟩

/-! ## Helper lemmas: dispatcher counting and append-only behavior -/

lemma answers_toolMsg (i id r : String) :
    answers i (toolMsg id r) = decide (id = i) := by
  unfold answers toolMsg
  by_cases h : id = i <;> simp [h]

lemma answers_false_of_role {i : String} {m : Msg} (h : m.role ≠ Role.tool) :
    answers i m = false := by
  unfold answers
  exact decide_eq_false (fun hc => h hc.1)

lemma process_tool_calls_step (available : Registry)
    (decode : String → Option Args) (tc : ToolCall) (rest : List ToolCall)
    (messages : List Msg) :
    process_tool_calls available decode (tc :: rest) messages
      = match available tc.fname with
        | none => process_tool_calls available decode rest messages
        | some f =>
          match decode tc.arguments with
          | none => (messages, true)
          | some args =>
              process_tool_calls available decode rest
                (messages ++ [toolMsg tc.id (f args)]) := rfl

lemma process_tool_calls_count (available : Registry)
    (decode : String → Option Args) :
    ∀ (l : List ToolCall) (msgs : List Msg),
      (∀ tc ∈ l, (available tc.fname).isSome ∧ (decode tc.arguments).isSome) →
      (process_tool_calls available decode l msgs).2 = false ∧
      ∀ i : String,
        (process_tool_calls available decode l msgs).1.countP (answers i)
          = msgs.countP (answers i)
            + l.countP (fun tc => decide (tc.id = i)) := by
  intro l
  induction l with
  | nil =>
    intro msgs _
    exact ⟨rfl, fun i => by simp [process_tool_calls]⟩
  | cons tc rest ih =>
    intro msgs h
    obtain ⟨hf, hd⟩ := h tc (by simp)
    obtain ⟨f, hfa⟩ := Option.isSome_iff_exists.mp hf
    obtain ⟨args, hda⟩ := Option.isSome_iff_exists.mp hd
    rw [process_tool_calls_step, hfa, hda]
    obtain ⟨ih1, ih2⟩ := ih (msgs ++ [toolMsg tc.id (f args)])
      (fun tc' htc' => h tc' (List.mem_cons_of_mem tc htc'))
    refine ⟨ih1, fun i => ?_⟩
    rw [ih2 i, List.countP_append,
      List.countP_cons (answers i) (toolMsg tc.id (f args)) [],
      List.countP_cons (fun tc' => decide (tc'.id = i)) tc rest,
      List.countP_nil, answers_toolMsg]
    by_cases hi : tc.id = i
    · simp [hi]
      omega
    · simp [hi]

lemma countP_id_of_nodup {l : List ToolCall}
    (hn : (l.map ToolCall.id).Nodup) {tc : ToolCall} (h : tc ∈ l) :
    l.countP (fun tc' => decide (tc'.id = tc.id)) = 1 := by
  have h1 : l.countP (fun tc' => decide (tc'.id = tc.id))
      = (l.map ToolCall.id).countP (fun s => decide (s = tc.id)) := by
    rw [List.countP_map]
    rfl
  have h2 : (l.map ToolCall.id).countP (fun s => decide (s = tc.id))
      = (l.map ToolCall.id).count tc.id := by
    rw [List.count_eq_countP]
    apply List.countP_congr
    intro s _
    by_cases hs : s = tc.id <;> simp [hs]
  rw [h1, h2]
  exact List.count_eq_one_of_mem hn (List.mem_map_of_mem ToolCall.id h)

lemma process_tool_calls_extends (available : Registry)
    (decode : String → Option Args) :
    ∀ (l : List ToolCall) (msgs : List Msg),
      msgs <+: (process_tool_calls available decode l msgs).1 := by
  intro l
  induction l with
  | nil => intro msgs; exact List.prefix_refl _
  | cons tc rest ih =>
    intro msgs
    rw [process_tool_calls_step]
    cases hfa : available tc.fname with
    | none => exact ih msgs
    | some f =>
      cases hda : decode tc.arguments with
      | none => exact List.prefix_refl _
      | some args =>
        exact (List.prefix_append msgs [toolMsg tc.id (f args)]).trans (ih _)

lemma countP_answers_msgs1 (sess : Session) (i : String) :
    (msgs1 sess).countP (answers i) = 0 := by
  have h1 : answers i systemMsg = false :=
    answers_false_of_role (by simp [systemMsg])
  have h2 : answers i (userMsg ("What's the current stock price for "
      ++ sess.stockQuery ++ "?")) = false :=
    answers_false_of_role (by simp [userMsg])
  have h3 : answers i (initial_response sess) = false :=
    answers_false_of_role (by
      show (process_stream (sess.provider (msgs0 sess))).role ≠ Role.tool
      simp [process_stream])
  unfold msgs1 msgs0
  rw [List.countP_append]
  simp [List.countP_cons, h1, h2, h3]

/-! ## Claim theorems: conversation invariant (C1) and append-only list (C8) -/

/-- Claim C1 counterexample: in the concrete session `cexSession` the second model
call's response carries the tool-call request with id `"tc2"`, yet at the
moment the third model call is issued (message list `msgs4`) no tool-role
message with that `tool_call_id` has been appended — zero instead of exactly
one — because the orchestrator never dispatches the second-round response's
tool calls.  This refutes the claim quantified over every model response of
the session. -/
theorem c1_counterexample :
    (⟨"tc2", "search_stock_symbol", "args"⟩ : ToolCall)
        ∈ (final_response cexSession).toolCalls ∧
    (msgs4 cexSession).countP (answers "tc2") = 0 := by
  decide

/-- Claim C1, amended: for the first-round and third-round responses — the
two whose tool calls the orchestrator dispatches — each request id is
answered by exactly one tool-role message with matching `tool_call_id`
before the next model call is issued, provided every requested function name
is registered, every argument text decodes, the request ids are
duplicate-free, and (for the third round) not already answered; the
second-round response's tool calls are never dispatched: no tool-role
message at all is appended between the second and third model calls. -/
theorem c1_amended (sess : Session)
    (h1 : ∀ tc ∈ (initial_response sess).toolCalls,
      ((sessionRegistry sess) tc.fname).isSome ∧ (sess.decode tc.arguments).isSome)
    (h1n : ((initial_response sess).toolCalls.map ToolCall.id).Nodup)
    (h3 : ∀ tc ∈ (final_choice_response sess).toolCalls,
      ((sessionRegistry sess) tc.fname).isSome ∧ (sess.decode tc.arguments).isSome)
    (h3n : ((final_choice_response sess).toolCalls.map ToolCall.id).Nodup)
    (h3f : ∀ tc ∈ (final_choice_response sess).toolCalls,
      (msgs5 sess).countP (answers tc.id) = 0) :
    (∀ tc ∈ (initial_response sess).toolCalls,
      (msgs2 sess).countP (answers tc.id) = 1) ∧
    ((msgs4 sess).filter (fun m => decide (m.role = Role.tool))
      = (msgs2 sess).filter (fun m => decide (m.role = Role.tool))) ∧
    (∀ tc ∈ (final_choice_response sess).toolCalls,
      (msgs6 sess).countP (answers tc.id) = 1) := by
  refine ⟨?_, ?_, ?_⟩
  · intro tc htc
    have hcount := (process_tool_calls_count (sessionRegistry sess) sess.decode
      (initial_response sess).toolCalls (msgs1 sess) h1).2 tc.id
    have : msgs2 sess = (process_tool_calls (sessionRegistry sess) sess.decode
        (initial_response sess).toolCalls (msgs1 sess)).1 := rfl
    rw [this, hcount, countP_answers_msgs1, countP_id_of_nodup h1n htc]
  · have h4 : msgs4 sess = msgs2 sess
        ++ [final_response sess,
            userMsg ("I choose option " ++ sess.userChoice ++ ".")] := by
      unfold msgs4 msgs3
      rw [List.append_assoc]
      rfl
    rw [h4, List.filter_append]
    have hnil : List.filter (fun m => decide (m.role = Role.tool))
        [final_response sess,
          userMsg ("I choose option " ++ sess.userChoice ++ ".")] = [] := by
      have hr : (final_response sess).role = Role.assistant := rfl
      simp [List.filter_cons, hr, userMsg]
    rw [hnil, List.append_nil]
  · intro tc htc
    have hne : (final_choice_response sess).toolCalls ≠ [] := by
      intro hc
      rw [hc] at htc
      cases htc
    have h6 : msgs6 sess = (process_tool_calls (sessionRegistry sess) sess.decode
        (final_choice_response sess).toolCalls (msgs5 sess)).1 := by
      unfold msgs6 dispatch2
      rw [if_neg hne]
    have hcount := (process_tool_calls_count (sessionRegistry sess) sess.decode
      (final_choice_response sess).toolCalls (msgs5 sess) h3).2 tc.id
    rw [h6, hcount, h3f tc htc, countP_id_of_nodup h3n htc]

/-- Claim C1 witness: in the concrete session `witSession` the first response
requests two simultaneous tool calls and the third response one; every
hypothesis holds and each request is answered exactly once before the next
model call. -/
theorem c1_witness :
    ((∀ tc ∈ (initial_response witSession).toolCalls,
        ((sessionRegistry witSession) tc.fname).isSome ∧
          (witSession.decode tc.arguments).isSome) ∧
      ((initial_response witSession).toolCalls.map ToolCall.id).Nodup ∧
      (∀ tc ∈ (final_choice_response witSession).toolCalls,
        ((sessionRegistry witSession) tc.fname).isSome ∧
          (witSession.decode tc.arguments).isSome) ∧
      ((final_choice_response witSession).toolCalls.map ToolCall.id).Nodup ∧
      (∀ tc ∈ (final_choice_response witSession).toolCalls,
        (msgs5 witSession).countP (answers tc.id) = 0) ∧
      (initial_response witSession).toolCalls.length = 2) ∧
    ((∀ tc ∈ (initial_response witSession).toolCalls,
        (msgs2 witSession).countP (answers tc.id) = 1) ∧
      ((msgs4 witSession).filter (fun m => decide (m.role = Role.tool))
        = (msgs2 witSession).filter (fun m => decide (m.role = Role.tool))) ∧
      (∀ tc ∈ (final_choice_response witSession).toolCalls,
        (msgs6 witSession).countP (answers tc.id) = 1)) :=
  ⟨⟨by decide, by decide, by decide, by decide, by decide, by decide⟩,
    c1_amended witSession (by decide) (by decide) (by decide) (by decide) (by decide)⟩

/-- Claim C8: the conversation message list is append-only.  Every dispatcher
run returns a list of which its input is a prefix (even when it aborts on a
decode failure), and along the whole session the successive values of the
message list form a chain under the prefix order; the stream accumulator
never touches the list at all (it does not receive it). -/
theorem c8_append_only :
    (∀ (available : Registry) (decode : String → Option Args)
        (l : List ToolCall) (msgs : List Msg),
        msgs <+: (process_tool_calls available decode l msgs).1) ∧
    ∀ sess : Session,
      List.Chain' (fun a b : List Msg => a <+: b)
        [msgs0 sess, msgs1 sess, msgs2 sess, msgs3 sess, msgs4 sess, msgs5 sess, msgs6 sess] := by
  refine ⟨process_tool_calls_extends, fun sess => ?_⟩
  simp only [List.chain'_cons, List.chain'_singleton]
  refine ⟨List.prefix_append _ _, ?_, List.prefix_append _ _,
    List.prefix_append _ _, List.prefix_append _ _, ?_, trivial⟩
  · exact process_tool_calls_extends (sessionRegistry sess) sess.decode
      (initial_response sess).toolCalls (msgs1 sess)
  · have hd2 : msgs6 sess
        = (if (final_choice_response sess).toolCalls = [] then (msgs5 sess, false)
          else process_tool_calls (sessionRegistry sess) sess.decode
            (final_choice_response sess).toolCalls (msgs5 sess)).1 := rfl
    rw [hd2]
    by_cases hc : (final_choice_response sess).toolCalls = []
    · rw [if_pos hc]
    · rw [if_neg hc]
      exact process_tool_calls_extends _ _ _ _

end StockDemo
